import Mathlib

/-!
Verification of the what-if analysis engine (`whatif.py`) of the
SC3020 project: node-id assignment, plan modification, planner-directive
compilation and cost comparison, shallowly embedded as pure Lean
functions over an explicit plan-tree data model.
-/

set_option maxHeartbeats 1000000

/-- One plan node's scalar fields, mirroring the keys of a PostgreSQL
EXPLAIN (FORMAT JSON) plan dictionary that the code reads or writes.
`nodeType` is the "Node Type" entry, `nodeId` the "Node ID" entry stamped
by `assign_node_ids` (absent on raw engine output), `totalCost` the
"Total Cost" entry. Costs are modelled as exact rationals. -/
structure NodeData where
  nodeType : String
  relationName : Option String
  aliasName : Option String
  filterExpr : Option String
  indexCond : Option String
  sortKey : Option String
  groupKey : Option String
  totalCost : Option ℚ
  nodeId : Option Nat
deriving DecidableEq

/-- A plan tree: one node dictionary together with its ordered "Plans"
list of children. -/
inductive PlanTree where
  | node (data : NodeData) (plans : List PlanTree)

/-- The node dictionary at the root of a plan tree. -/
def PlanTree.data : PlanTree → NodeData
  | .node d _ => d

/-- The ordered children ("Plans") of a plan tree's root. -/
def PlanTree.plans : PlanTree → List PlanTree
  | .node _ ps => ps

mutual

/-- `assign_node_ids(node, current_id)` from `whatif.py`: stamps the node
with `current_id`, computes `child_id = current_id * 10`, and recurses on
child `i` with id `child_id + i`.  The in-place mutation is modelled as a
pure function returning the stamped tree. -/
def assign_node_ids : PlanTree → Nat → PlanTree
  | .node d ps, current_id =>
    .node { d with nodeId := some current_id } (assignChildren ps (current_id * 10) 0)

/-- The `for i, child in enumerate(node.get("Plans", []))` loop of
`assign_node_ids`: child at offset `i` receives id `child_id + i`. -/
def assignChildren : List PlanTree → Nat → Nat → List PlanTree
  | [], _, _ => []
  | child :: rest, child_id, i =>
    assign_node_ids child (child_id + i) :: assignChildren rest child_id (i + 1)

end

mutual

/-- All "Node ID" entries of a tree, root first, children left to right. -/
def idList : PlanTree → List (Option Nat)
  | .node d ps => d.nodeId :: idListL ps

/-- `idList` mapped over a list of trees and concatenated. -/
def idListL : List PlanTree → List (Option Nat)
  | [] => []
  | c :: cs => idList c ++ idListL cs

end

mutual

/-- Every node of the tree has at most 9 children. -/
def bounded9 : PlanTree → Bool
  | .node _ ps => decide (ps.length ≤ 9) && bounded9L ps

/-- `bounded9` at every tree of a list. -/
def bounded9L : List PlanTree → Bool
  | [] => true
  | c :: cs => bounded9 c && bounded9L cs

end

mutual

/-- Every node of the tree carries some id `k`, and its `i`-th child
(0-based) carries id `k * 10 + i`; recursively at every node. -/
def childIdsOk : PlanTree → Prop
  | .node d ps =>
    (∃ k, d.nodeId = some k ∧
      ∀ i (h : i < ps.length), (ps.get ⟨i, h⟩).data.nodeId = some (k * 10 + i)) ∧
    childIdsOkL ps

/-- `childIdsOk` at every tree of a list. -/
def childIdsOkL : List PlanTree → Prop
  | [] => True
  | c :: cs => childIdsOk c ∧ childIdsOkL cs

end

example :
    assign_node_ids (.node ⟨"Hash Join", none, none, none, none, none, none, some 10, none⟩
      [.node ⟨"Seq Scan", none, none, none, none, none, none, some 4, none⟩ [],
       .node ⟨"Seq Scan", none, none, none, none, none, none, some 5, none⟩ []]) 1 =
    .node ⟨"Hash Join", none, none, none, none, none, none, some 10, some 1⟩
      [.node ⟨"Seq Scan", none, none, none, none, none, none, some 4, some 10⟩ [],
       .node ⟨"Seq Scan", none, none, none, none, none, none, some 5, some 11⟩ []] := by
  rfl

theorem assignChildren_length (cs : List PlanTree) (base j : Nat) :
    (assignChildren cs base j).length = cs.length := by
  induction cs generalizing j with
  | nil => rfl
  | cons c cs ih => simp [assignChildren, ih]

theorem assign_node_ids_root_id (t : PlanTree) (k : Nat) :
    (assign_node_ids t k).data.nodeId = some k := by
  match t with
  | .node d ps => rw [assign_node_ids]; rfl

/-- Two suffixes of the same list with equal lengths are equal. -/
theorem suffix_eq_of_length {α : Type} {l₁ l₂ l : List α}
    (h₁ : l₁ <:+ l) (h₂ : l₂ <:+ l) (h : l₁.length = l₂.length) : l₁ = l₂ := by
  obtain ⟨t₁, rfl⟩ := h₁
  obtain ⟨t₂, ht⟩ := h₂
  have hlen : t₂.length = t₁.length := by
    have := congrArg List.length ht
    simp at this
    omega
  exact (List.append_inj_right ht hlen).symm

/-- Base-10 digits of `k * 10 + i` for a digit `i`: the digit `i` followed
by the digits of `k`. -/
theorem digits_ten_mul_add (k i : Nat) (hk : 1 ≤ k) (hi : i < 10) :
    Nat.digits 10 (k * 10 + i) = i :: Nat.digits 10 k := by
  rw [Nat.digits_def' (by norm_num : (1:ℕ) < 10) (by omega)]
  congr 1
  · omega
  · congr 1
    omega

mutual

/-- Every id stamped in the subtree started at id `k` (with `k ≥ 1` and
at most 9 children everywhere) is a `some m` whose base-10 digits have the
digits of `k` as a suffix: an id encodes the downward path to the node. -/
theorem idSuffix (t : PlanTree) (k : Nat) (hk : 1 ≤ k) (hb : bounded9 t = true) :
    ∀ o ∈ idList (assign_node_ids t k), ∃ m, o = some m ∧
      Nat.digits 10 k <:+ Nat.digits 10 m := by
  match t with
  | .node d ps =>
    intro o ho
    rw [assign_node_ids] at ho
    rw [idList] at ho
    simp only [List.mem_cons] at ho
    rcases ho with ho | ho
    · exact ⟨k, ho, List.suffix_refl _⟩
    · simp only [bounded9, Bool.and_eq_true, decide_eq_true_eq] at hb
      obtain ⟨m, rfl, i, _, _, hsuf⟩ :=
        idSuffixL ps k 0 hk (by omega) hb.2 o ho
      exact ⟨m, rfl, (List.suffix_cons i _).trans hsuf⟩

/-- Ids stamped in the sibling subtrees `cs` whose roots get ids
`k * 10 + j`, `k * 10 + (j + 1)`, … have digits ending in
`i :: digits k` where `i` is the index of the sibling subtree the id
came from. -/
theorem idSuffixL (cs : List PlanTree) (k j : Nat) (hk : 1 ≤ k)
    (hlen : j + cs.length ≤ 10) (hb : bounded9L cs = true) :
    ∀ o ∈ idListL (assignChildren cs (k * 10) j), ∃ m, o = some m ∧
      ∃ i, j ≤ i ∧ i < j + cs.length ∧
        (i :: Nat.digits 10 k) <:+ Nat.digits 10 m := by
  match cs with
  | [] => intro o ho; simp [assignChildren, idListL] at ho
  | c :: cs =>
    intro o ho
    rw [assignChildren] at ho
    rw [idListL] at ho
    simp only [bounded9L, Bool.and_eq_true] at hb
    simp only [List.length_cons] at hlen
    rcases List.mem_append.1 ho with ho | ho
    · obtain ⟨m, rfl, hsuf⟩ :=
        idSuffix c (k * 10 + j) (by omega) hb.1 o ho
      refine ⟨m, rfl, j, le_refl j, by simp, ?_⟩
      rwa [digits_ten_mul_add k j hk (by omega)] at hsuf
    · obtain ⟨m, rfl, i, hi1, hi2, hsuf⟩ :=
        idSuffixL cs k (j + 1) hk (by omega) hb.2 o ho
      exact ⟨m, rfl, i, by omega, by simp; omega, hsuf⟩

end

mutual

/-- The ids stamped by `assign_node_ids` on a tree with at most 9
children per node, starting from any id `k ≥ 1`, are pairwise distinct. -/
theorem idNodup (t : PlanTree) (k : Nat) (hk : 1 ≤ k) (hb : bounded9 t = true) :
    (idList (assign_node_ids t k)).Nodup := by
  match t with
  | .node d ps =>
    rw [assign_node_ids, idList]
    simp only [bounded9, Bool.and_eq_true, decide_eq_true_eq] at hb
    refine List.nodup_cons.2 ⟨?_, idNodupL ps k 0 hk (by omega) hb.2⟩
    intro hmem
    obtain ⟨m, hm, i, _, _, hsuf⟩ := idSuffixL ps k 0 hk (by omega) hb.2 _ hmem
    obtain rfl : k = m := by simpa using hm
    have := List.IsSuffix.length_le hsuf
    simp at this

/-- The ids stamped in sibling subtrees `cs` whose roots get ids
`k * 10 + j`, `k * 10 + (j + 1)`, … are pairwise distinct overall. -/
theorem idNodupL (cs : List PlanTree) (k j : Nat) (hk : 1 ≤ k)
    (hlen : j + cs.length ≤ 10) (hb : bounded9L cs = true) :
    (idListL (assignChildren cs (k * 10) j)).Nodup := by
  match cs with
  | [] => simp [assignChildren, idListL]
  | c :: cs =>
    rw [assignChildren, idListL]
    simp only [bounded9L, Bool.and_eq_true] at hb
    simp only [List.length_cons] at hlen
    refine List.nodup_append.2 ⟨idNodup c (k * 10 + j) (by omega) hb.1,
      idNodupL cs k (j + 1) hk (by omega) hb.2, ?_⟩
    intro o ho ho'
    obtain ⟨m, rfl, hsuf⟩ := idSuffix c (k * 10 + j) (by omega) hb.1 o ho
    obtain ⟨m', hm', i, hi1, _, hsuf'⟩ :=
      idSuffixL cs k (j + 1) hk (by omega) hb.2 _ ho'
    obtain rfl : m = m' := by simpa using hm'
    rw [digits_ten_mul_add k j hk (by omega)] at hsuf
    have heq : (j :: Nat.digits 10 k) = (i :: Nat.digits 10 k) :=
      suffix_eq_of_length hsuf hsuf' (by simp)
    simp at heq
    omega

end

theorem assignChildren_get_id (cs : List PlanTree) (base j i : Nat)
    (h : i < (assignChildren cs base j).length) :
    ((assignChildren cs base j).get ⟨i, h⟩).data.nodeId = some (base + j + i) := by
  induction cs generalizing j i with
  | nil => simp [assignChildren] at h
  | cons c cs ih =>
    match i with
    | 0 => simpa [assignChildren] using assign_node_ids_root_id c (base + j)
    | i + 1 =>
      have hlt : i < (assignChildren cs base (j + 1)).length := by
        simpa [assignChildren] using h
      show ((assign_node_ids c (base + j) ::
          assignChildren cs base (j + 1)).get ⟨i + 1, by simpa using hlt⟩).data.nodeId = _
      rw [List.get_cons_succ, ih (j + 1) i hlt]
      congr 1
      omega

mutual

/-- After `assign_node_ids`, every node carries an id `k` and its `i`-th
child carries id `k * 10 + i`, at every level of the tree. -/
theorem assignChildIdsOk (t : PlanTree) (k : Nat) : childIdsOk (assign_node_ids t k) := by
  match t with
  | .node d ps =>
    rw [assign_node_ids, childIdsOk]
    refine ⟨⟨k, rfl, ?_⟩, assignChildIdsOkL ps (k * 10) 0⟩
    intro i h
    simpa using assignChildren_get_id ps (k * 10) 0 i h

/-- `childIdsOk` for every subtree of a stamped sibling list. -/
theorem assignChildIdsOkL (cs : List PlanTree) (base j : Nat) :
    childIdsOkL (assignChildren cs base j) := by
  match cs with
  | [] => rw [assignChildren, childIdsOkL]; trivial
  | c :: cs =>
    rw [assignChildren, childIdsOkL]
    exact ⟨assignChildIdsOk c (base + j), assignChildIdsOkL cs base (j + 1)⟩

end

/-- C1: on every plan tree in which each node has at most 9 children,
`assign_node_ids` (run with the code's default starting id) gives the
root id 1, gives the `i`-th (0-based) child of a node with id `k` the id
`k * 10 + i`, and the resulting ids are pairwise distinct across the
whole tree. -/
theorem c1_assign_node_ids_correct (t : PlanTree) (h : bounded9 t = true) :
    (assign_node_ids t 1).data.nodeId = some 1 ∧
    childIdsOk (assign_node_ids t 1) ∧
    (idList (assign_node_ids t 1)).Nodup :=
  ⟨assign_node_ids_root_id t 1, assignChildIdsOk t 1, idNodup t 1 (le_refl 1) h⟩

/-- A small concrete plan tree: a join of two scans, one with a further
child, used as a witness input. -/
def sampleTree : PlanTree :=
  .node ⟨"Hash Join", none, none, none, none, none, none, some 100, none⟩
    [.node ⟨"Seq Scan", some "customer", none, none, none, none, none, some 40, none⟩ [],
     .node ⟨"Hash", none, none, none, none, none, none, some 55, none⟩
       [.node ⟨"Seq Scan", some "orders", none, none, none, none, none, some 50, none⟩ []]]

theorem c1_assign_node_ids_correct_witness :
    bounded9 sampleTree = true ∧
    ((assign_node_ids sampleTree 1).data.nodeId = some 1 ∧
      childIdsOk (assign_node_ids sampleTree 1) ∧
      (idList (assign_node_ids sampleTree 1)).Nodup) :=
  ⟨by decide, c1_assign_node_ids_correct sampleTree (by decide)⟩

/-- One entry of the modifications dictionary: the optional "Scan Type"
and "Node Type" overrides for one node id. -/
structure Modification where
  scanType : Option String
  nodeType : Option String
deriving DecidableEq

/-- Dictionary lookup `modifications[node_id]`, with the dictionary
modelled as an association list in insertion order. -/
def modsLookup (node_id : Nat) : List (Nat × Modification) → Option Modification
  | [] => none
  | (k, m) :: rest => if node_id = k then some m else modsLookup node_id rest

/-- The body of `apply_changes` acting on one node dictionary: if the
node's "Node ID" is a key of `modifications`, first a present "Scan Type"
replaces "Node Type", then a present "Node Type" replaces it again. -/
def applyData (modifications : List (Nat × Modification)) (d : NodeData) : NodeData :=
  match d.nodeId with
  | none => d
  | some node_id =>
    match modsLookup node_id modifications with
    | none => d
    | some modification =>
      let d1 := match modification.scanType with
        | some s => { d with nodeType := s }
        | none => d
      match modification.nodeType with
      | some nt => { d1 with nodeType := nt }
      | none => d1

mutual

/-- `apply_changes(node, modifications)` from `modify_qep`: pre-order
walk overriding "Node Type" at every node whose "Node ID" is a key of
`modifications`, then recursing into the children.  The in-place
mutation is modelled as a pure function returning the new tree. -/
def apply_changes (modifications : List (Nat × Modification)) : PlanTree → PlanTree
  | .node d ps => .node (applyData modifications d) (applyChangesL modifications ps)

/-- The `for child in node.get("Plans", [])` loop of `apply_changes`. -/
def applyChangesL (modifications : List (Nat × Modification)) : List PlanTree → List PlanTree
  | [] => []
  | c :: cs => apply_changes modifications c :: applyChangesL modifications cs

end

/-- A QEP as returned by EXPLAIN: a top-level dictionary holding the
"Plan" tree. -/
structure QEP where
  plan : PlanTree

/-- `modify_qep(original_qep, modifications)`: shallow-copies the
top-level dictionary and runs `apply_changes` on its "Plan" tree. -/
def modify_qep (original_qep : QEP) (modifications : List (Nat × Modification)) : QEP :=
  { original_qep with plan := apply_changes modifications original_qep.plan }

mutual

/-- Erase the "Node Type" tag of every node, keeping all other fields,
the shape and the child order: the projection under which two trees are
compared "up to node types". -/
def eraseNodeType : PlanTree → PlanTree
  | .node d ps => .node { d with nodeType := "" } (eraseNodeTypeL ps)

/-- `eraseNodeType` mapped over a list of trees. -/
def eraseNodeTypeL : List PlanTree → List PlanTree
  | [] => []
  | c :: cs => eraseNodeType c :: eraseNodeTypeL cs

end

theorem eraseNodeType_applyData (modifications : List (Nat × Modification)) (d : NodeData) :
    { applyData modifications d with nodeType := "" } = { d with nodeType := "" } := by
  obtain ⟨nt, rn, an, fe, ic, sk, gk, tc, ni⟩ := d
  cases ni with
  | none => rfl
  | some node_id =>
    rcases h : modsLookup node_id modifications with _ | ⟨st, mnt⟩
    · simp [applyData, h]
    · cases st <;> cases mnt <;> simp [applyData, h]

mutual

theorem eraseNodeType_apply_changes (modifications : List (Nat × Modification)) (t : PlanTree) :
    eraseNodeType (apply_changes modifications t) = eraseNodeType t := by
  match t with
  | .node d ps =>
    rw [apply_changes, eraseNodeType, eraseNodeType]
    rw [eraseNodeType_applyData, eraseNodeType_apply_changesL modifications ps]

theorem eraseNodeType_apply_changesL (modifications : List (Nat × Modification))
    (cs : List PlanTree) :
    eraseNodeTypeL (applyChangesL modifications cs) = eraseNodeTypeL cs := by
  match cs with
  | [] => rfl
  | c :: cs =>
    rw [applyChangesL, eraseNodeTypeL, eraseNodeTypeL]
    rw [eraseNodeType_apply_changes modifications c,
      eraseNodeType_apply_changesL modifications cs]

end

/-- C2: for every plan tree and every modification spec, `modify_qep`
returns a tree with the same shape and child ordering whose every field
other than the "Node Type" tag equals its value in the input tree:
erasing the node types of input and output gives equal trees. -/
theorem c2_modify_qep_frame (original_qep : QEP)
    (modifications : List (Nat × Modification)) :
    eraseNodeType (modify_qep original_qep modifications).plan =
      eraseNodeType original_qep.plan :=
  eraseNodeType_apply_changes modifications original_qep.plan

/-- Navigate a plan tree along a path of 0-based child indices. -/
def getPath : PlanTree → List Nat → Option PlanTree
  | t, [] => some t
  | .node _ ps, i :: p =>
    match ps[i]? with
    | some c => getPath c p
    | none => none

theorem applyChangesL_getElem? (modifications : List (Nat × Modification))
    (cs : List PlanTree) (i : Nat) :
    (applyChangesL modifications cs)[i]? = (cs[i]?).map (apply_changes modifications) := by
  induction cs generalizing i with
  | nil => simp [applyChangesL]
  | cons c cs ih =>
    match i with
    | 0 => simp [applyChangesL]
    | i + 1 => simpa [applyChangesL] using ih i

theorem getPath_apply_changes (modifications : List (Nat × Modification))
    (t : PlanTree) (p : List Nat) :
    getPath (apply_changes modifications t) p =
      (getPath t p).map (apply_changes modifications) := by
  induction p generalizing t with
  | nil =>
    match t with
    | .node d ps => rw [apply_changes]; rfl
  | cons i p ih =>
    match t with
    | .node d ps =>
      rw [apply_changes, getPath, getPath, applyChangesL_getElem?]
      cases h : ps[i]? with
      | none => rfl
      | some c => exact ih c

theorem applyData_nodeType_wins (modifications : List (Nat × Modification))
    (d : NodeData) (k : Nat) (hid : d.nodeId = some k)
    (m : Modification) (hm : modsLookup k modifications = some m)
    (s target : String) (hs : m.scanType = some s) (hnt : m.nodeType = some target) :
    (applyData modifications d).nodeType = target := by
  obtain ⟨st, mnt⟩ := m
  simp only at hs hnt
  subst hs hnt
  simp [applyData, hid, hm]

/-- C3: for every node of the tree whose id is a key of the modification
spec with both a "Scan Type" and a "Node Type" override present, the
node-type tag of the corresponding node of the tree returned by
`modify_qep` equals the entry's "Node Type" value: "Node Type" is
applied after "Scan Type" and wins. -/
theorem c3_node_type_wins (original_qep : QEP)
    (modifications : List (Nat × Modification)) (p : List Nat) (sub : PlanTree)
    (hpath : getPath original_qep.plan p = some sub)
    (k : Nat) (hid : sub.data.nodeId = some k)
    (m : Modification) (hm : modsLookup k modifications = some m)
    (s target : String) (hs : m.scanType = some s) (hnt : m.nodeType = some target) :
    ∃ sub', getPath (modify_qep original_qep modifications).plan p = some sub' ∧
      sub'.data.nodeType = target := by
  refine ⟨apply_changes modifications sub, ?_, ?_⟩
  · rw [modify_qep]
    show getPath (apply_changes modifications original_qep.plan) p = _
    rw [getPath_apply_changes, hpath, Option.map_some']
  · match sub with
    | .node d ps =>
      rw [apply_changes]
      exact applyData_nodeType_wins modifications d k hid m hm s target hs hnt

/-- A witness modification spec: node 10 gets both a "Scan Type" and a
"Node Type" override. -/
def sampleMods : List (Nat × Modification) :=
  [(10, ⟨some "Index Scan", some "Bitmap Heap Scan"⟩)]

theorem c3_node_type_wins_witness :
    getPath (assign_node_ids sampleTree 1) [0] = some (.node
        ⟨"Seq Scan", some "customer", none, none, none, none, none, some 40, some 10⟩ []) ∧
    ∃ sub', getPath (modify_qep ⟨assign_node_ids sampleTree 1⟩ sampleMods).plan [0] =
        some sub' ∧ sub'.data.nodeType = "Bitmap Heap Scan" := by
  refine ⟨by rfl, c3_node_type_wins ⟨assign_node_ids sampleTree 1⟩ sampleMods [0]
    (.node ⟨"Seq Scan", some "customer", none, none, none, none, none, some 40, some 10⟩ [])
    (by rfl) 10 (by rfl)
    ⟨some "Index Scan", some "Bitmap Heap Scan"⟩ (by rfl) "Index Scan"
    "Bitmap Heap Scan" rfl rfl⟩

/-- `get_operator_setting(operator_type)` from `whatif.py`: the
dictionary lookup with default `""` for unknown operators. -/
def get_operator_setting (operator_type : String) : String :=
  if operator_type = "Merge Join" then
    "SET enable_mergejoin = ON; SET enable_hashjoin = OFF; SET enable_nestloop = OFF;"
  else if operator_type = "Hash Join" then
    "SET enable_mergejoin = OFF; SET enable_hashjoin = ON; SET enable_nestloop = OFF;"
  else if operator_type = "Nested Loop" then
    "SET enable_mergejoin = OFF; SET enable_hashjoin = OFF; SET enable_nestloop = ON;"
  else ""

/-- The `if "Scan Type" in changes` branch of `apply_planner_settings`:
an `if`/`elif` with no `else`, so unknown scan types append nothing. -/
def scanSettings : Option String → List String
  | some scan_type =>
    if scan_type = "Index Scan" then
      ["SET enable_seqscan = OFF; SET enable_indexscan = ON; SET enable_bitmapscan = OFF;"]
    else if scan_type = "Seq Scan" then
      ["SET enable_seqscan = ON; SET enable_indexscan = OFF; SET enable_bitmapscan = OFF;"]
    else []
  | none => []

/-- The `if "Node Type" in changes` branch of `apply_planner_settings`:
appends `get_operator_setting`'s result unconditionally when the key is
present (the empty string for unknown operators). -/
def nodeTypeSettings : Option String → List String
  | some node_type => [get_operator_setting node_type]
  | none => []

/-- The strings `apply_planner_settings` appends to its `settings` list
for one modification entry: the "Scan Type" branch followed by the
"Node Type" branch. -/
def entrySettings (changes : Modification) : List String :=
  scanSettings changes.scanType ++ nodeTypeSettings changes.nodeType

/-- The full `settings` list built by the
`for node_id, changes in modifications.items()` loop. -/
def settingsList : List (Nat × Modification) → List String
  | [] => []
  | (_, changes) :: rest => entrySettings changes ++ settingsList rest

/-- Python's `" ".join`: the elements separated by single spaces. -/
def joinSpace : List String → String
  | [] => ""
  | [s] => s
  | s :: rest => s ++ " " ++ joinSpace rest

/-- `apply_planner_settings(modifications)` from `whatif.py`:
`" ".join(settings)` over the accumulated settings list. -/
def apply_planner_settings (modifications : List (Nat × Modification)) : String :=
  joinSpace (settingsList modifications)

/-- `needle` occurs in `hay` starting at its head. -/
def beginsWith : List Char → List Char → Bool
  | [], _ => true
  | _ :: _, [] => false
  | a :: as, b :: bs => a = b && beginsWith as bs

/-- `needle` occurs contiguously somewhere in `hay`. -/
def occursIn (needle : List Char) : List Char → Bool
  | [] => needle.isEmpty
  | c :: rest => beginsWith needle (c :: rest) || occursIn needle rest

/-- The string `needle` occurs contiguously in the string `hay`. -/
def strOccurs (needle hay : String) : Prop := occursIn needle.data hay.data = true

instance (needle hay : String) : Decidable (strOccurs needle hay) :=
  inferInstanceAs (Decidable (occursIn needle.data hay.data = true))

/-- The settings string `s` contains the directive turning `flag` on. -/
def enablesFlag (s flag : String) : Prop := strOccurs ("SET " ++ flag ++ " = ON;") s

/-- The settings string `s` contains the directive turning `flag` off. -/
def disablesFlag (s flag : String) : Prop := strOccurs ("SET " ++ flag ++ " = OFF;") s

theorem beginsWith_append (n l b : List Char) (h : beginsWith n l = true) :
    beginsWith n (l ++ b) = true := by
  induction n generalizing l with
  | nil => rfl
  | cons a as ih =>
    match l with
    | [] => simp [beginsWith] at h
    | c :: cs =>
      simp only [beginsWith, Bool.and_eq_true] at h ⊢
      exact ⟨h.1, ih cs h.2⟩

theorem occursIn_append_left (n a b : List Char) (h : occursIn n a = true) :
    occursIn n (a ++ b) = true := by
  induction a with
  | nil =>
    simp only [occursIn, List.isEmpty_iff] at h
    subst h
    match b with
    | [] => rfl
    | c :: cs => simp [occursIn, beginsWith]
  | cons c cs ih =>
    simp only [occursIn, Bool.or_eq_true] at h ⊢
    rcases h with h | h
    · exact Or.inl (beginsWith_append n (c :: cs) b h)
    · exact Or.inr (ih h)

theorem occursIn_append_right (n a b : List Char) (h : occursIn n b = true) :
    occursIn n (a ++ b) = true := by
  induction a with
  | nil => exact h
  | cons c cs ih =>
    simp only [List.cons_append, occursIn, Bool.or_eq_true]
    exact Or.inr ih

theorem strOccurs_append_left {n a : String} (h : strOccurs n a) (b : String) :
    strOccurs n (a ++ b) := by
  have : (a ++ b).data = a.data ++ b.data := String.data_append a b
  unfold strOccurs
  rw [this]
  exact occursIn_append_left n.data a.data b.data h

theorem strOccurs_append_right {n b : String} (h : strOccurs n b) (a : String) :
    strOccurs n (a ++ b) := by
  have : (a ++ b).data = a.data ++ b.data := String.data_append a b
  unfold strOccurs
  rw [this]
  exact occursIn_append_right n.data a.data b.data h

/-- Whatever occurs in an element of the list occurs in its
space-join. -/
theorem strOccurs_joinSpace {n s : String} (l : List String) (hs : s ∈ l)
    (h : strOccurs n s) : strOccurs n (joinSpace l) := by
  induction l with
  | nil => simp at hs
  | cons a rest ih =>
    match rest with
    | [] =>
      simp only [List.mem_singleton] at hs
      subst hs
      exact h
    | b :: rest' =>
      rcases List.mem_cons.1 hs with rfl | hs'
      · show strOccurs n (s ++ " " ++ joinSpace (b :: rest'))
        exact strOccurs_append_left (strOccurs_append_left h " ") _
      · show strOccurs n (a ++ " " ++ joinSpace (b :: rest'))
        exact strOccurs_append_right (ih hs') _

theorem strOccurs_apply_planner_settings_single (k : Nat) (c : Modification) (s n : String)
    (hs : s ∈ entrySettings c) (h : strOccurs n s) :
    strOccurs n (apply_planner_settings [(k, c)]) := by
  unfold apply_planner_settings
  refine strOccurs_joinSpace _ ?_ h
  show s ∈ settingsList [(k, c)]
  simpa [settingsList] using hs

/-- C4: `apply_planner_settings` maps an entry with "Scan Type"
"Index Scan" to directives enabling index scan and disabling sequential
and bitmap scan, an entry with "Scan Type" "Seq Scan" to directives
enabling sequential scan and disabling index and bitmap scan, and an
entry whose "Node Type" is "Merge Join", "Hash Join" or "Nested Loop" to
directives enabling exactly that join strategy and disabling the other
two — whatever the entry's other field and node id are. -/
theorem c4_apply_planner_settings_known (k : Nat) (ont snt : Option String) :
    (enablesFlag (apply_planner_settings [(k, ⟨some "Index Scan", ont⟩)]) "enable_indexscan" ∧
     disablesFlag (apply_planner_settings [(k, ⟨some "Index Scan", ont⟩)]) "enable_seqscan" ∧
     disablesFlag (apply_planner_settings [(k, ⟨some "Index Scan", ont⟩)]) "enable_bitmapscan") ∧
    (enablesFlag (apply_planner_settings [(k, ⟨some "Seq Scan", ont⟩)]) "enable_seqscan" ∧
     disablesFlag (apply_planner_settings [(k, ⟨some "Seq Scan", ont⟩)]) "enable_indexscan" ∧
     disablesFlag (apply_planner_settings [(k, ⟨some "Seq Scan", ont⟩)]) "enable_bitmapscan") ∧
    (enablesFlag (apply_planner_settings [(k, ⟨snt, some "Merge Join"⟩)]) "enable_mergejoin" ∧
     disablesFlag (apply_planner_settings [(k, ⟨snt, some "Merge Join"⟩)]) "enable_hashjoin" ∧
     disablesFlag (apply_planner_settings [(k, ⟨snt, some "Merge Join"⟩)]) "enable_nestloop") ∧
    (enablesFlag (apply_planner_settings [(k, ⟨snt, some "Hash Join"⟩)]) "enable_hashjoin" ∧
     disablesFlag (apply_planner_settings [(k, ⟨snt, some "Hash Join"⟩)]) "enable_mergejoin" ∧
     disablesFlag (apply_planner_settings [(k, ⟨snt, some "Hash Join"⟩)]) "enable_nestloop") ∧
    (enablesFlag (apply_planner_settings [(k, ⟨snt, some "Nested Loop"⟩)]) "enable_nestloop" ∧
     disablesFlag (apply_planner_settings [(k, ⟨snt, some "Nested Loop"⟩)]) "enable_mergejoin" ∧
     disablesFlag (apply_planner_settings [(k, ⟨snt, some "Nested Loop"⟩)]) "enable_hashjoin") := by
  refine ⟨⟨?_, ?_, ?_⟩, ⟨?_, ?_, ?_⟩, ⟨?_, ?_, ?_⟩, ⟨?_, ?_, ?_⟩, ⟨?_, ?_, ?_⟩⟩
  · exact strOccurs_apply_planner_settings_single k _
      "SET enable_seqscan = OFF; SET enable_indexscan = ON; SET enable_bitmapscan = OFF;" _
      (by simp [entrySettings, scanSettings, nodeTypeSettings, get_operator_setting]) (by decide)
  · exact strOccurs_apply_planner_settings_single k _
      "SET enable_seqscan = OFF; SET enable_indexscan = ON; SET enable_bitmapscan = OFF;" _
      (by simp [entrySettings, scanSettings, nodeTypeSettings, get_operator_setting]) (by decide)
  · exact strOccurs_apply_planner_settings_single k _
      "SET enable_seqscan = OFF; SET enable_indexscan = ON; SET enable_bitmapscan = OFF;" _
      (by simp [entrySettings, scanSettings, nodeTypeSettings, get_operator_setting]) (by decide)
  · exact strOccurs_apply_planner_settings_single k _
      "SET enable_seqscan = ON; SET enable_indexscan = OFF; SET enable_bitmapscan = OFF;" _
      (by simp [entrySettings, scanSettings, nodeTypeSettings, get_operator_setting]) (by decide)
  · exact strOccurs_apply_planner_settings_single k _
      "SET enable_seqscan = ON; SET enable_indexscan = OFF; SET enable_bitmapscan = OFF;" _
      (by simp [entrySettings, scanSettings, nodeTypeSettings, get_operator_setting]) (by decide)
  · exact strOccurs_apply_planner_settings_single k _
      "SET enable_seqscan = ON; SET enable_indexscan = OFF; SET enable_bitmapscan = OFF;" _
      (by simp [entrySettings, scanSettings, nodeTypeSettings, get_operator_setting]) (by decide)
  · exact strOccurs_apply_planner_settings_single k _
      "SET enable_mergejoin = ON; SET enable_hashjoin = OFF; SET enable_nestloop = OFF;" _
      (by simp [entrySettings, scanSettings, nodeTypeSettings, get_operator_setting]) (by decide)
  · exact strOccurs_apply_planner_settings_single k _
      "SET enable_mergejoin = ON; SET enable_hashjoin = OFF; SET enable_nestloop = OFF;" _
      (by simp [entrySettings, scanSettings, nodeTypeSettings, get_operator_setting]) (by decide)
  · exact strOccurs_apply_planner_settings_single k _
      "SET enable_mergejoin = ON; SET enable_hashjoin = OFF; SET enable_nestloop = OFF;" _
      (by simp [entrySettings, scanSettings, nodeTypeSettings, get_operator_setting]) (by decide)
  · exact strOccurs_apply_planner_settings_single k _
      "SET enable_mergejoin = OFF; SET enable_hashjoin = ON; SET enable_nestloop = OFF;" _
      (by simp [entrySettings, scanSettings, nodeTypeSettings, get_operator_setting]) (by decide)
  · exact strOccurs_apply_planner_settings_single k _
      "SET enable_mergejoin = OFF; SET enable_hashjoin = ON; SET enable_nestloop = OFF;" _
      (by simp [entrySettings, scanSettings, nodeTypeSettings, get_operator_setting]) (by decide)
  · exact strOccurs_apply_planner_settings_single k _
      "SET enable_mergejoin = OFF; SET enable_hashjoin = ON; SET enable_nestloop = OFF;" _
      (by simp [entrySettings, scanSettings, nodeTypeSettings, get_operator_setting]) (by decide)
  · exact strOccurs_apply_planner_settings_single k _
      "SET enable_mergejoin = OFF; SET enable_hashjoin = OFF; SET enable_nestloop = ON;" _
      (by simp [entrySettings, scanSettings, nodeTypeSettings, get_operator_setting]) (by decide)
  · exact strOccurs_apply_planner_settings_single k _
      "SET enable_mergejoin = OFF; SET enable_hashjoin = OFF; SET enable_nestloop = ON;" _
      (by simp [entrySettings, scanSettings, nodeTypeSettings, get_operator_setting]) (by decide)
  · exact strOccurs_apply_planner_settings_single k _
      "SET enable_mergejoin = OFF; SET enable_hashjoin = OFF; SET enable_nestloop = ON;" _
      (by simp [entrySettings, scanSettings, nodeTypeSettings, get_operator_setting]) (by decide)

theorem joinSpace_spaces (l : List String) (h : ∀ s ∈ l, s = "") :
    ∀ ch ∈ (joinSpace l).data, ch = ' ' := by
  induction l with
  | nil => intro ch hch; simp [joinSpace] at hch
  | cons a rest ih =>
    match rest with
    | [] =>
      have ha : a = "" := h a (by simp)
      subst ha
      intro ch hch
      simp [joinSpace] at hch
    | b :: rest' =>
      have ha : a = "" := h a (by simp)
      intro ch hch
      have hdata : (joinSpace (a :: b :: rest')).data =
          a.data ++ " ".data ++ (joinSpace (b :: rest')).data := by
        show (a ++ " " ++ joinSpace (b :: rest')).data = _
        simp [String.data_append]
      rw [hdata, ha] at hch
      simp at hch
      rcases hch with rfl | hch
      · rfl
      · exact ih (fun s hs => h s (List.mem_cons_of_mem _ hs)) ch hch

theorem occursIn_S_spaces (rest hay : List Char) (h : ∀ ch ∈ hay, ch = ' ') :
    occursIn ('S' :: rest) hay = false := by
  induction hay with
  | nil => rfl
  | cons c cs ih =>
    have hc : c = ' ' := h c (List.mem_cons_self c cs)
    subst hc
    show (beginsWith ('S' :: rest) (' ' :: cs) || occursIn ('S' :: rest) cs) = false
    rw [ih (fun ch hch => h ch (List.mem_cons_of_mem _ hch))]
    show (decide ('S' = ' ') && beginsWith rest cs || false) = false
    simp

/-- C5: for every modification entry whose "Scan Type" is neither
"Index Scan" nor "Seq Scan" and whose "Node Type" is none of the three
known join operators, `apply_planner_settings` emits no directive for
the entry and raises no error: everything the entry contributes to the
settings list is the empty string, and the compiled settings string
contains no "SET" directive at all. -/
theorem c5_apply_planner_settings_unknown (k : Nat) (c : Modification)
    (h1 : c.scanType ≠ some "Index Scan") (h2 : c.scanType ≠ some "Seq Scan")
    (h3 : c.nodeType ≠ some "Merge Join") (h4 : c.nodeType ≠ some "Hash Join")
    (h5 : c.nodeType ≠ some "Nested Loop") :
    (∀ s ∈ entrySettings c, s = "") ∧
    ¬ strOccurs "SET" (apply_planner_settings [(k, c)]) := by
  obtain ⟨st, mnt⟩ := c
  simp only at h1 h2 h3 h4 h5
  have hempty : ∀ s ∈ entrySettings ⟨st, mnt⟩, s = "" := by
    intro s hs
    simp only [entrySettings, List.mem_append] at hs
    rcases hs with hs | hs
    · rcases st with _ | scan_type
      · simp [scanSettings] at hs
      · have hne1 : scan_type ≠ "Index Scan" := fun he => h1 (by rw [he])
        have hne2 : scan_type ≠ "Seq Scan" := fun he => h2 (by rw [he])
        rw [scanSettings, if_neg hne1, if_neg hne2] at hs
        simp at hs
    · rcases mnt with _ | node_type
      · simp [nodeTypeSettings] at hs
      · have hne3 : node_type ≠ "Merge Join" := fun he => h3 (by rw [he])
        have hne4 : node_type ≠ "Hash Join" := fun he => h4 (by rw [he])
        have hne5 : node_type ≠ "Nested Loop" := fun he => h5 (by rw [he])
        rw [nodeTypeSettings] at hs
        simp only [List.mem_singleton] at hs
        subst hs
        rw [get_operator_setting, if_neg hne3, if_neg hne4, if_neg hne5]
  refine ⟨hempty, ?_⟩
  intro hocc
  have hs : ∀ s ∈ settingsList [(k, ⟨st, mnt⟩)], s = "" := by
    intro s hsm
    simp only [settingsList, List.append_nil] at hsm
    exact hempty s hsm
  have hsp := joinSpace_spaces _ hs
  have hfalse : occursIn ('S' :: "ET".data)
      (joinSpace (settingsList [(k, ⟨st, mnt⟩)])).data = false :=
    occursIn_S_spaces _ _ hsp
  have htrue : occursIn ('S' :: "ET".data)
      (joinSpace (settingsList [(k, ⟨st, mnt⟩)])).data = true := hocc
  rw [htrue] at hfalse
  exact Bool.noConfusion hfalse

theorem c5_apply_planner_settings_unknown_witness :
    (∀ s ∈ entrySettings ⟨some "Bogus", some "Bogus Op"⟩, s = "") ∧
    ¬ strOccurs "SET" (apply_planner_settings [(1, ⟨some "Bogus", some "Bogus Op"⟩)]) :=
  c5_apply_planner_settings_unknown 1 ⟨some "Bogus", some "Bogus Op"⟩
    (by decide) (by decide) (by decide) (by decide) (by decide)

/-- Round a rational to the nearest integer, ties to the even integer:
the rounding Python's `round(Decimal, 2)` performs (`ROUND_HALF_EVEN`,
the default decimal context). -/
def roundHalfEven (q : ℚ) : ℤ :=
  if Int.fract q < 1 / 2 then ⌊q⌋
  else if 1 / 2 < Int.fract q then ⌊q⌋ + 1
  else if 2 ∣ ⌊q⌋ then ⌊q⌋ else ⌊q⌋ + 1

/-- `round(x, 2)`: round to two decimal places, ties to even. -/
def round2 (q : ℚ) : ℚ := (roundHalfEven (q * 100) : ℚ) / 100

/-- The error kinds of the what-if engine: `ConnectionError`,
`RuntimeError` wrapping engine failures during plan retrieval, and the
`ValueError` of `compare_costs` (the spec's `CostExtractionError`). -/
inductive WhatIfError where
  | connectionError
  | planRetrievalError
  | costExtractionError
deriving DecidableEq

/-- The result dictionary of `compare_costs`. -/
structure CostComparison where
  originalCost : ℚ
  modifiedCost : ℚ
  costDifference : ℚ
deriving DecidableEq

/-- `compare_costs(qep, aqp)` from `whatif.py`: reads each root's
"Total Cost" with default `-1`, computes the rounded difference, raises
`ValueError` when either cost read as `-1`, and otherwise returns the
comparison record. -/
def compare_costs (qep aqp : QEP) : Except WhatIfError CostComparison :=
  let original_cost : ℚ := (qep.plan.data.totalCost).getD (-1)
  let modified_cost : ℚ := (aqp.plan.data.totalCost).getD (-1)
  let cost_difference : ℚ := round2 (modified_cost - original_cost)
  if original_cost = -1 ∨ modified_cost = -1 then
    Except.error WhatIfError.costExtractionError
  else
    Except.ok ⟨original_cost, modified_cost, cost_difference⟩

theorem roundHalfEven_neg (q : ℚ) : roundHalfEven (-q) = -roundHalfEven q := by
  unfold roundHalfEven
  by_cases hq : Int.fract q = 0
  · have h0 : Int.fract (-q) = 0 := by
      rw [Int.fract_neg_eq_zero]
      exact hq
    rw [hq, h0]
    have hfq : (⌊q⌋ : ℚ) = q := by
      have := Int.fract_add_floor q
      rw [hq] at this
      simpa using this
    have : ⌊-q⌋ = -⌊q⌋ := by
      rw [show -q = ((-⌊q⌋ : ℤ) : ℚ) by push_cast; rw [hfq]]
      exact Int.floor_intCast _
    rw [this]
    norm_num
  · have hfr : Int.fract (-q) = 1 - Int.fract q := Int.fract_neg hq
    have hpos : 0 < Int.fract q := lt_of_le_of_ne (Int.fract_nonneg q) (Ne.symm hq)
    have hlt : Int.fract q < 1 := Int.fract_lt_one q
    have hfl : ⌊-q⌋ = -⌊q⌋ - 1 := by
      rw [Int.floor_eq_iff]
      constructor
      · push_cast
        have := Int.fract_add_floor q
        nlinarith [this]
      · push_cast
        have := Int.fract_add_floor q
        nlinarith [this]
    rw [hfr, hfl]
    rcases lt_trichotomy (Int.fract q) (1 / 2) with hc | hc | hc
    · have hl1 : ¬ (1 - Int.fract q < 1 / 2) := by linarith
      have hl2 : 1 / 2 < 1 - Int.fract q := by linarith
      rw [if_neg hl1, if_pos hl2, if_pos hc]
      omega
    · have hl1 : ¬ (1 - Int.fract q < 1 / 2) := by rw [hc]; norm_num
      have hl2 : ¬ (1 / 2 < 1 - Int.fract q) := by rw [hc]; norm_num
      have hr1 : ¬ (Int.fract q < 1 / 2) := by rw [hc]; norm_num
      have hr2 : ¬ (1 / 2 < Int.fract q) := by rw [hc]; norm_num
      rw [if_neg hl1, if_neg hl2, if_neg hr1, if_neg hr2]
      by_cases hev : 2 ∣ ⌊q⌋
      · rw [if_pos hev, if_neg (show ¬ (2:ℤ) ∣ -⌊q⌋ - 1 by omega)]
        omega
      · rw [if_neg hev, if_pos (show (2:ℤ) ∣ -⌊q⌋ - 1 by omega)]
        omega
    · have hl1 : 1 - Int.fract q < 1 / 2 := by linarith
      have hr1 : ¬ (Int.fract q < 1 / 2) := by linarith
      rw [if_pos hl1, if_neg hr1, if_pos hc]
      omega

theorem round2_neg (q : ℚ) : round2 (-q) = -round2 q := by
  unfold round2
  rw [show -q * 100 = -(q * 100) by ring, roundHalfEven_neg]
  push_cast
  ring

theorem compare_costs_ok (qep aqp : QEP) (a b : ℚ)
    (ha : qep.plan.data.totalCost = some a) (hb : aqp.plan.data.totalCost = some b)
    (ha0 : 0 ≤ a) (hb0 : 0 ≤ b) :
    compare_costs qep aqp = Except.ok ⟨a, b, round2 (b - a)⟩ := by
  unfold compare_costs
  rw [ha, hb]
  simp only [Option.getD_some]
  have hne : ¬ (a = -1 ∨ b = -1) := by
    rintro (rfl | rfl)
    · norm_num at ha0
    · norm_num at hb0
  rw [if_neg hne]

/-- C6: for every pair of plan trees whose roots carry a (non-negative,
per the data model) total cost, `compare_costs` returns the original
root cost, the alternative root cost, and their difference — alternative
minus original — rounded to 2 decimal places.  The concrete
100.00-vs-85.5 instance is the witness below. -/
theorem c6_compare_costs_formula (qep aqp : QEP) (a b : ℚ)
    (ha : qep.plan.data.totalCost = some a) (hb : aqp.plan.data.totalCost = some b)
    (ha0 : 0 ≤ a) (hb0 : 0 ≤ b) :
    compare_costs qep aqp = Except.ok ⟨a, b, round2 (b - a)⟩ :=
  compare_costs_ok qep aqp a b ha hb ha0 hb0

/-- A QEP whose root has total cost 100.00. -/
def qepA : QEP :=
  ⟨.node ⟨"Seq Scan", some "customer", none, none, none, none, none, some 100, some 1⟩ []⟩

/-- An AQP whose root has total cost 85.5. -/
def qepB : QEP :=
  ⟨.node ⟨"Index Scan", some "customer", none, none, none, none, none, some 85.5, some 1⟩ []⟩

theorem c6_compare_costs_formula_witness :
    compare_costs qepA qepB = Except.ok ⟨100, 85.5, -14.5⟩ := by
  have h := c6_compare_costs_formula qepA qepB 100 85.5 rfl rfl (by norm_num) (by norm_num)
  rw [h]
  have hr : round2 (85.5 - 100) = -14.5 := by
    have h1 : (85.5 - 100 : ℚ) * 100 = ((-1450 : ℤ) : ℚ) := by norm_num
    unfold round2 roundHalfEven
    rw [h1, Int.fract_intCast, Int.floor_intCast]
    norm_num
  rw [hr]

/-- C7: if either input tree's root lacks a usable total cost,
`compare_costs` fails with the cost-extraction error — a kind distinct
from the engine-refusal kinds — and returns no comparison record. -/
theorem c7_compare_costs_missing (qep aqp : QEP)
    (h : qep.plan.data.totalCost = none ∨ aqp.plan.data.totalCost = none) :
    compare_costs qep aqp = Except.error WhatIfError.costExtractionError ∧
    WhatIfError.costExtractionError ≠ WhatIfError.planRetrievalError ∧
    WhatIfError.costExtractionError ≠ WhatIfError.connectionError := by
  refine ⟨?_, by decide, by decide⟩
  unfold compare_costs
  rcases h with h | h <;> rw [h] <;> simp

/-- A QEP whose root carries no "Total Cost" entry. -/
def qepNoCost : QEP :=
  ⟨.node ⟨"Seq Scan", some "customer", none, none, none, none, none, none, some 1⟩ []⟩

theorem c7_compare_costs_missing_witness :
    compare_costs qepNoCost qepA = Except.error WhatIfError.costExtractionError ∧
    WhatIfError.costExtractionError ≠ WhatIfError.planRetrievalError ∧
    WhatIfError.costExtractionError ≠ WhatIfError.connectionError :=
  c7_compare_costs_missing qepNoCost qepA (Or.inl rfl)

/-- C8: for plan trees whose roots carry (non-negative) total costs, the
difference `compare_costs` computes for (A, B) is the exact negation of
the one it computes for (B, A): rounding half to even is an odd
function. -/
theorem c8_compare_costs_antisymm (A B : QEP) (a b : ℚ)
    (ha : A.plan.data.totalCost = some a) (hb : B.plan.data.totalCost = some b)
    (ha0 : 0 ≤ a) (hb0 : 0 ≤ b) :
    ∃ r₁ r₂ : CostComparison,
      compare_costs A B = Except.ok r₁ ∧ compare_costs B A = Except.ok r₂ ∧
      r₁.costDifference = -r₂.costDifference := by
  refine ⟨⟨a, b, round2 (b - a)⟩, ⟨b, a, round2 (a - b)⟩,
    compare_costs_ok A B a b ha hb ha0 hb0,
    compare_costs_ok B A b a hb ha hb0 ha0, ?_⟩
  show round2 (b - a) = -round2 (a - b)
  rw [show b - a = -(a - b) by ring, round2_neg]

theorem c8_compare_costs_antisymm_witness :
    ∃ r₁ r₂ : CostComparison,
      compare_costs qepA qepB = Except.ok r₁ ∧ compare_costs qepB qepA = Except.ok r₂ ∧
      r₁.costDifference = -r₂.costDifference :=
  c8_compare_costs_antisymm qepA qepB 100 85.5 rfl rfl (by norm_num) (by norm_num)

/-- A QEP whose root actually carries Total Cost −1. -/
def qepNegCost : QEP :=
  ⟨.node ⟨"Seq Scan", some "customer", none, none, none, none, none, some (-1), some 1⟩ []⟩

/-- C10: `compare_costs` signals a missing cost via the sentinel `-1`:
it raises its failure error exactly when either root's total cost reads
as `-1` under the `get(..., -1)` default, so a tree whose root actually
carries Total Cost −1 raises even though the cost is present. -/
theorem c10_compare_costs_sentinel :
    (∀ qep aqp : QEP,
      compare_costs qep aqp = Except.error WhatIfError.costExtractionError ↔
      ((qep.plan.data.totalCost).getD (-1) = -1 ∨
        (aqp.plan.data.totalCost).getD (-1) = -1)) ∧
    qepNegCost.plan.data.totalCost = some (-1) ∧
    compare_costs qepNegCost qepA = Except.error WhatIfError.costExtractionError := by
  refine ⟨?_, rfl, ?_⟩
  · intro qep aqp
    unfold compare_costs
    constructor
    · intro h
      by_contra hc
      rw [if_neg hc] at h
      exact Except.noConfusion h
    · intro h
      rw [if_pos h]
  · simp [compare_costs, qepNegCost, qepA, PlanTree.data]

/-- A heap-resident plan node: its dictionary fields plus the addresses
of the child node objects its "Plans" entry references.  Modelling
Python dictionaries as heap objects makes object identity (aliasing)
expressible. -/
structure HNode where
  data : NodeData
  plans : List Nat

/-- Point update of a heap at one address. -/
def updateHeap (h : Nat → HNode) (a : Nat) (n : HNode) : Nat → HNode :=
  fun a' => if a' = a then n else h a'

mutual

/-- `apply_changes` of `modify_qep` read as what it really is in Python:
an in-place mutation of heap-allocated node dictionaries.  The node at
`addr` has its "Node Type" overridden in place (via `applyData`), then
the walk recurses into the addresses the node's "Plans" list holds.
`fuel` bounds the recursion depth so the walk is total; every theorem
below holds for every fuel value. -/
def heapApplyChanges (modifications : List (Nat × Modification)) :
    Nat → (Nat → HNode) → Nat → (Nat → HNode)
  | 0, h, _ => h
  | fuel + 1, h, addr =>
    heapApplyChangesL modifications fuel
      (updateHeap h addr ⟨applyData modifications (h addr).data, (h addr).plans⟩)
      ((h addr).plans)
termination_by fuel _ _ => (fuel, 0)

/-- The loop over the child addresses of one node. -/
def heapApplyChangesL (modifications : List (Nat × Modification)) :
    Nat → (Nat → HNode) → List Nat → (Nat → HNode)
  | _, h, [] => h
  | fuel, h, c :: cs =>
    heapApplyChangesL modifications fuel (heapApplyChanges modifications fuel h c) cs
termination_by fuel _ l => (fuel, l.length + 1)

end

/-- A heap-resident QEP: the top-level EXPLAIN dictionary, holding the
address of its "Plan" tree root. -/
structure HQEP where
  plan : Nat

/-- `modify_qep` on the heap: `original_qep.copy()` shallow-copies the
top-level dictionary — producing a new dictionary whose "Plan" entry is
the same address — and then `apply_changes` mutates the shared node
objects in place. -/
def heap_modify_qep (modifications : List (Nat × Modification)) (fuel : Nat)
    (h : Nat → HNode) (original_qep : HQEP) : HQEP × (Nat → HNode) :=
  (⟨original_qep.plan⟩, heapApplyChanges modifications fuel h original_qep.plan)

/-- `h'` has the same child-address lists and the same node fields other
than "Node Type" as `h`, at every address: the mutation touched nothing
but node-type tags and allocated nothing. -/
def preservesShape (h h' : Nat → HNode) : Prop :=
  ∀ a, (h' a).plans = (h a).plans ∧
    { (h' a).data with nodeType := "" } = { (h a).data with nodeType := "" }

theorem preservesShape_trans {h1 h2 h3 : Nat → HNode}
    (p : preservesShape h1 h2) (q : preservesShape h2 h3) : preservesShape h1 h3 :=
  fun a => ⟨(q a).1.trans (p a).1, (q a).2.trans (p a).2⟩

theorem preservesShape_update (modifications : List (Nat × Modification))
    (h : Nat → HNode) (addr : Nat) :
    preservesShape h
      (updateHeap h addr ⟨applyData modifications (h addr).data, (h addr).plans⟩) := by
  intro a
  unfold updateHeap
  by_cases ha : a = addr
  · subst ha
    rw [if_pos rfl]
    exact ⟨rfl, eraseNodeType_applyData modifications (h a).data⟩
  · rw [if_neg ha]
    exact ⟨rfl, rfl⟩

theorem heapApplyChanges_preserves (fuel : Nat) :
    (∀ (modifications : List (Nat × Modification)) (h : Nat → HNode) (r : Nat),
      preservesShape h (heapApplyChanges modifications fuel h r)) ∧
    (∀ (modifications : List (Nat × Modification)) (h : Nat → HNode) (l : List Nat),
      preservesShape h (heapApplyChangesL modifications fuel h l)) := by
  induction fuel with
  | zero =>
    have hA : ∀ (modifications : List (Nat × Modification)) (h : Nat → HNode) (r : Nat),
        preservesShape h (heapApplyChanges modifications 0 h r) := by
      intro mods h r
      rw [heapApplyChanges]
      exact fun a => ⟨rfl, rfl⟩
    refine ⟨hA, ?_⟩
    intro mods h l
    induction l generalizing h with
    | nil =>
      rw [heapApplyChangesL]
      exact fun a => ⟨rfl, rfl⟩
    | cons c cs ihl =>
      rw [heapApplyChangesL]
      exact preservesShape_trans (hA mods h c) (ihl _)
  | succ fuel ih =>
    have hA : ∀ (modifications : List (Nat × Modification)) (h : Nat → HNode) (r : Nat),
        preservesShape h (heapApplyChanges modifications (fuel + 1) h r) := by
      intro mods h r
      rw [heapApplyChanges]
      exact preservesShape_trans (preservesShape_update mods h r) (ih.2 mods _ _)
    refine ⟨hA, ?_⟩
    intro mods h l
    induction l generalizing h with
    | nil =>
      rw [heapApplyChangesL]
      exact fun a => ⟨rfl, rfl⟩
    | cons c cs ihl =>
      rw [heapApplyChangesL]
      exact preservesShape_trans (hA mods h c) (ihl _)

/-- A two-node heap: address 0 holds a join whose "Plans" list references
address 1, a scan.  Node 0 carries id 1. -/
def demoHeap : Nat → HNode :=
  fun a =>
    if a = 0 then ⟨⟨"Merge Join", none, none, none, none, none, none, some 100, some 1⟩, [1]⟩
    else ⟨⟨"Seq Scan", some "customer", none, none, none, none, none, some 40, some 10⟩, []⟩

/-- A modification overriding node 1 (the root) to "Hash Join". -/
def demoMods : List (Nat × Modification) := [(1, ⟨none, some "Hash Join"⟩)]

/-- C9: `modify_qep` copies only the top-level dictionary.  On the heap
model: (1) the returned QEP's "Plan" entry is the very address the input
QEP holds; (2) the walk updates node objects in place — every address
keeps its child-address list and all fields but "Node Type", so the
nodes reachable from the returned root are the same objects as the
input's; and (3) reading the caller's original root object (address 0)
after the call shows the overridden node type: the original QEP tree was
mutated in place. -/
theorem c9_modify_qep_aliasing :
    (∀ (modifications : List (Nat × Modification)) (fuel : Nat)
      (h : Nat → HNode) (q : HQEP),
      (heap_modify_qep modifications fuel h q).1.plan = q.plan) ∧
    (∀ (modifications : List (Nat × Modification)) (fuel : Nat)
      (h : Nat → HNode) (r a : Nat),
      ((heapApplyChanges modifications fuel h r) a).plans = (h a).plans ∧
      { ((heapApplyChanges modifications fuel h r) a).data with nodeType := "" } =
        { (h a).data with nodeType := "" }) ∧
    ((heapApplyChanges demoMods 2 demoHeap 0) 0).data.nodeType = "Hash Join" := by
  refine ⟨fun _ _ _ _ => rfl, ?_, ?_⟩
  · intro mods fuel h r a
    exact (heapApplyChanges_preserves fuel).1 mods h r a
  · simp [heapApplyChanges, heapApplyChangesL, updateHeap, demoHeap, demoMods,
      applyData, modsLookup]
